import Mathlib

/-!
Verification of the fyzenor terminal file manager (C++, ncurses) against its
natural-language specification.  The definitions below are a shallow embedding
of the program's data model and operations: directory catalog loading
(`loadDirectory`), the clipboard copy/cut/paste state machine (`handleCopy`,
`handleCut`, `handlePaste`), parent navigation (`goUpIndex`), the asynchronous
preview pipeline's request counter and single cache slot (`pvStep`, `pvRun`),
the Kitty graphics chunk encoder (`sendKittyGraphics`), the preview render
gate (`drawPreviewAction`) and the human-readable size formatter
(`formatSize`).  C++ `std::string` values are modelled as Lean `String`s and
their byte-wise lexicographic ordering as the lexicographic order on `.data`
(the list of characters).  Filesystem effects are modelled explicitly: a
directory listing is a list of `DirEvent`s (entries interleaved with a
possible iterator error), and the mutating paste operation acts on the list
of currently existing paths.
-/

/-- Directory entry as built by the C++ `FileEntry` constructor: full path,
display name (`p.filename()`), directory flag, byte size (0 for directories or
on `file_size` failure) and lower-cased extension. -/
structure FileEntry where
  path : String
  name : String
  is_directory : Bool
  size : Nat
  extension : String
deriving DecidableEq, Repr

instance : Inhabited FileEntry := ⟨⟨"", "", false, 0, ""⟩⟩

/-- The `VIDEO_EXTS` extension set from the source configuration block. -/
def VIDEO_EXTS : List String :=
  [".mp4", ".mkv", ".avi", ".mov", ".flv", ".wmv", ".webm"]

/-- The `IMAGE_EXTS` extension set from the source configuration block. -/
def IMAGE_EXTS : List String :=
  [".png", ".jpg", ".jpeg", ".gif", ".bmp", ".webp", ".svg", ".tiff"]

/-- The `CODE_EXTS` extension set from the source configuration block. -/
def CODE_EXTS : List String :=
  [".cpp", ".h", ".hpp", ".c", ".cc", ".py", ".js", ".ts", ".rs", ".go",
   ".java", ".rb", ".php", ".html", ".css", ".scss", ".json", ".xml", ".yaml",
   ".yml", ".toml", ".ini", ".sh", ".bash", ".zsh", ".lua", ".md", ".txt",
   ".conf", ".diff", ".patch", ".sql", ".cmake", ".make", ".dockerfile"]

/-- The hidden-file test `entry.path().filename().string().front() == '.'`
from `loadDirectory`.  An empty name has no front character (undefined
behaviour in C++); it is modelled as not hidden. -/
def hiddenName (s : String) : Bool :=
  match s.data with
  | [] => false
  | c :: _ => c == '.'

/-- The filter applied to each directory entry in `loadDirectory`:
an entry is kept unless hidden files are masked and its name starts with
a dot (`if (!showHidden && ... .front() == '.') continue;`). -/
def keepEntry (showHidden : Bool) (e : FileEntry) : Bool :=
  showHidden || !(hiddenName e.name)

/-- One observation made by `fs::directory_iterator` while `loadDirectory`
iterates: either the next directory entry, or a thrown `filesystem_error`
(permission denied at open shows up as `fsError` in the first position;
an I/O error during iteration as `fsError` after some entries). -/
inductive DirEvent where
  | entry (e : FileEntry)
  | fsError
deriving DecidableEq, Repr

/-- One pass of `loadDirectory` over the directory stream: collect the
entries that pass the hidden filter and whose directory flag equals
`wantDir`, stopping at the first thrown error.  Returns the collected
entries together with a flag recording whether an exception was thrown
(the surrounding `try`/`catch (...)` swallows it). -/
def scanEntries (wantDir : Bool) (showHidden : Bool) : List DirEvent → List FileEntry × Bool
  | [] => ([], false)
  | DirEvent.fsError :: _ => ([], true)
  | DirEvent.entry e :: rest =>
    let res := scanEntries wantDir showHidden rest
    if keepEntry showHidden e && (e.is_directory == wantDir) then (e :: res.1, res.2)
    else res

/-- The comparator discipline of `std::sort(..., a.name < b.name)`: the sorted
output has every pair of consecutive elements `a, b` with `!(b.name < a.name)`,
i.e. `a.name ≤ b.name` in the lexicographic order on the character sequence. -/
def nameLe (a b : FileEntry) : Prop := a.name.data ≤ b.name.data

instance : DecidableRel nameLe :=
  fun a b => inferInstanceAs (Decidable (a.name.data ≤ b.name.data))

instance : IsTotal FileEntry nameLe := ⟨fun a b => le_total a.name.data b.name.data⟩

instance : IsTrans FileEntry nameLe := ⟨fun _ _ _ h1 h2 => le_trans h1 h2⟩

/-- The `std::sort` call of `loadDirectory` on one run (directories or files):
modelled as a sorting function producing a permutation of its input that is
sorted with respect to the comparator's induced weak order `nameLe`.  With
distinct names (true of any real directory) this output is the unique sorted
permutation, so the choice of sorting algorithm is immaterial. -/
def sortRun (l : List FileEntry) : List FileEntry := List.insertionSort nameLe l

/-- `FileManager::loadDirectory`: clear the target, iterate once collecting
directories, sort them, iterate again collecting files, sort that tail run,
all inside one `try` whose `catch (...)` ignores any thrown error and leaves
the target as it stands at the throw point. -/
def loadDirectory (events : List DirEvent) (showHidden : Bool) : List FileEntry :=
  let dirs := scanEntries true showHidden events
  if dirs.2 then dirs.1
  else
    let files := scanEntries false showHidden events
    if files.2 then sortRun dirs.1 ++ files.1
    else sortRun dirs.1 ++ sortRun files.1

/-- Cursor selection performed by `FileManager::goUp` after reloading the
parent catalog: `selectedIndex = 0`, then the first entry whose name equals
the previous directory's leaf name wins (`break` on first match). -/
def goUpIndex (files : List FileEntry) (oldDirName : String) : Nat :=
  match files.findIdx? (fun f => f.name == oldDirName) with
  | some i => i
  | none => 0

/-- The `Clipboard` struct: source paths plus the cut-vs-copy flag. -/
structure Clipboard where
  paths : List String
  isCut : Bool
deriving DecidableEq, Repr

/-- The part of the `FileManager` state read and written by
`handleCopy`/`handleCut`: the clipboard, the multi-selection set and the
status line. -/
structure YankState where
  clipboard : Clipboard
  multiSelection : List String
  statusMessage : String
deriving DecidableEq, Repr

/-- The clipboard contents snapshot shared by `handleCopy` and `handleCut`:
the multi-selection if non-empty, otherwise the single entry under the
cursor. -/
def yankPaths (currentFiles : List FileEntry) (selectedIndex : Nat)
    (multiSelection : List String) : List String :=
  if multiSelection.isEmpty then [(currentFiles.getD selectedIndex default).path]
  else multiSelection

/-- `FileManager::handleCopy`: early return on an empty catalog, otherwise
overwrite the clipboard with the yank snapshot in copy mode, set the status
line and clear the multi-selection. -/
def handleCopy (currentFiles : List FileEntry) (selectedIndex : Nat)
    (st : YankState) : YankState :=
  if currentFiles.isEmpty then st
  else
    { clipboard :=
        { paths := yankPaths currentFiles selectedIndex st.multiSelection,
          isCut := false },
      multiSelection := [],
      statusMessage := "Yanked items" }

/-- `FileManager::handleCut`: identical to `handleCopy` except the clipboard
is marked cut and the status line differs. -/
def handleCut (currentFiles : List FileEntry) (selectedIndex : Nat)
    (st : YankState) : YankState :=
  if currentFiles.isEmpty then st
  else
    { clipboard :=
        { paths := yankPaths currentFiles selectedIndex st.multiSelection,
          isCut := true },
      multiSelection := [],
      statusMessage := "Cut items" }

/-- Characters after the last slash, accumulating the current component:
the model of `fs::path::filename()` for the slash-separated path strings the
clipboard holds. -/
def leafChars (cur : List Char) : List Char → List Char
  | [] => cur
  | c :: cs => if c == '/' then leafChars [] cs else leafChars (cur ++ [c]) cs

/-- `src.filename()` on a path string. -/
def leafName (s : String) : String := ⟨leafChars [] s.data⟩

/-- The paste destination `currentPath / src.filename()`. -/
def destPath (currentPath src : String) : String :=
  currentPath ++ "/" ++ leafName src

/-- Outcome of processing one clipboard item inside `handlePaste`: the
`continue` branch (skipped), the `try` block running to its end
(`successCount++`), or a caught exception. -/
inductive ItemOutcome where
  | skipped
  | succeeded
  | failed
deriving DecidableEq, Repr

/-- One iteration of the `handlePaste` loop over the model filesystem
(the list of currently existing paths).  Clipboard items are modelled as
regular files.  The skip guard is the source's
`fs::exists(dest) && !clipboard.isCut && src != dest`.  In cut mode
`fs::rename` succeeds exactly when the source exists (replacing any existing
destination; the cross-device fallback of copy-then-delete has the same net
effect).  In copy mode `fs::copy` succeeds exactly when the source exists and
the destination does not (copying onto an existing file, including a file
onto itself, throws and is swallowed by `catch (...)`). -/
def pasteItem (currentPath : String) (isCut : Bool) (fsPaths : List String)
    (src : String) : List String × ItemOutcome :=
  let dest := destPath currentPath src
  if dest ∈ fsPaths ∧ ¬isCut ∧ src ≠ dest then (fsPaths, ItemOutcome.skipped)
  else if isCut then
    if src ∈ fsPaths then ((fsPaths.erase src).insert dest, ItemOutcome.succeeded)
    else (fsPaths, ItemOutcome.failed)
  else
    if src ∈ fsPaths ∧ dest ∉ fsPaths then (fsPaths.insert dest, ItemOutcome.succeeded)
    else (fsPaths, ItemOutcome.failed)

/-- Result of `FileManager::handlePaste`: the filesystem after the loop, the
clipboard (cleared only on cut with at least one success), the status line,
and the loop's `successCount`. -/
structure PasteResult where
  fsPaths : List String
  clipboard : Clipboard
  statusMessage : String
  successCount : Nat
deriving DecidableEq, Repr

/-- `FileManager::handlePaste`: report "Clipboard empty" and change nothing
when the clipboard is empty; otherwise process every clipboard path in order,
counting successes, then clear the clipboard exactly when it was a cut and at
least one item succeeded, and set the status line. -/
def handlePaste (currentPath : String) (fsPaths : List String)
    (clip : Clipboard) : PasteResult :=
  if clip.paths.isEmpty then
    { fsPaths := fsPaths, clipboard := clip,
      statusMessage := "Clipboard empty", successCount := 0 }
  else
    let res := clip.paths.foldl
      (fun acc src =>
        let one := pasteItem currentPath clip.isCut acc.1 src
        (one.1, acc.2 + if one.2 = ItemOutcome.succeeded then 1 else 0))
      ((fsPaths, 0) : List String × Nat)
    { fsPaths := res.1,
      clipboard :=
        if clip.isCut ∧ 0 < res.2 then { paths := [], isCut := clip.isCut }
        else clip,
      statusMessage := if clip.isCut then "Moved items" else "Pasted items",
      successCount := res.2 }

/-- The shared asynchronous preview state: the monotonic request counter
`requestID` and the single cache slot's source path `cachedPath` (initially
the empty string), both guarded by `previewMutex`. -/
structure PreviewSlot where
  requestID : Nat
  cachedPath : String
deriving DecidableEq, Repr

/-- An atomic step on the shared preview state: a dispatch
(`startAsyncPreview` incrementing `requestID` and spawning a worker that
captures the new value as `reqId`), or a worker's commit section
(`if (reqId == requestID) { ...; cachedPath = path; }` under the lock). -/
inductive PvEvent where
  | dispatch
  | commit (reqId : Nat)
deriving DecidableEq, Repr

/-- The path captured by the worker spawned at the `g`-th dispatch
(generation id `g`), for a run whose dispatched paths are `ps` in order. -/
def dispatchPath (ps : List String) (g : Nat) : String := ps.getD (g - 1) ""

/-- Effect of one `PvEvent` on the shared preview state.  A dispatch
increments the counter; a commit writes the worker's path into the cache slot
only when the worker's captured generation id equals the counter's current
value, and is silently dropped otherwise. -/
def pvStep (ps : List String) (s : PreviewSlot) : PvEvent → PreviewSlot
  | PvEvent.dispatch => { s with requestID := s.requestID + 1 }
  | PvEvent.commit g =>
    if g = s.requestID then { s with cachedPath := dispatchPath ps g } else s

/-- Run an interleaving of dispatches and commits from the initial state
(`requestID = 0`, empty cache path). -/
def pvRun (ps : List String) (events : List PvEvent) : PreviewSlot :=
  events.foldl (pvStep ps) { requestID := 0, cachedPath := "" }

/-- Whether an event is a dispatch. -/
def isDispatch : PvEvent → Bool
  | PvEvent.dispatch => true
  | PvEvent.commit _ => false

/-- Number of dispatches in an event sequence. -/
def countDispatch (events : List PvEvent) : Nat :=
  (events.filter isDispatch).length

/-- One framed chunk emitted by `sendKittyGraphics`: the placement metadata
string present only on the first chunk, the `m` attribute (1 = more data
follows, 0 = final chunk) and the base64 payload slice. -/
structure KittyChunk where
  ctrl : String
  m : Nat
  payload : List Char
deriving DecidableEq, Repr

/-- The placement metadata the first chunk carries:
action transmit-and-display, format 100 (PNG), direct transmission,
quietness 2. -/
def KITTY_META : String := "a=T,f=100,t=d,q=2,"

/-- The chunking loop of `sendKittyGraphics`
(`while (offset < total) { chunkLen = min(4096, total - offset); ... }`),
written with a fuel argument for structural recursion: each iteration
consumes at least one character, so fuel equal to the payload length is
enough.  `first` records `offset == 0`; `m` is 0 exactly when
`offset + chunkLen >= total`, i.e. when at most 4096 characters remain. -/
def kittyChunksAux : Nat → Bool → List Char → List KittyChunk
  | 0, _, _ => []
  | _ + 1, _, [] => []
  | fuel + 1, first, c :: cs =>
    { ctrl := if first then KITTY_META else "",
      m := if (c :: cs).length ≤ 4096 then 0 else 1,
      payload := (c :: cs).take 4096 } ::
      kittyChunksAux fuel false ((c :: cs).drop 4096)

/-- `FileManager::sendKittyGraphics` on a base64 payload (the cursor
positioning escape before the loop is not modelled): the list of framed
chunks the loop emits. -/
def sendKittyGraphics (b64Data : List Char) : List KittyChunk :=
  kittyChunksAux b64Data.length true b64Data

/-- What `drawPreview` paints below the detail header for the entry under the
cursor. -/
inductive PreviewAction where
  | dirListing
  | drawCacheText
  | drawCacheImage
  | loading
  | waitInFlight
  | rawPreview
deriving DecidableEq, Repr

/-- The branch structure of `FileManager::drawPreview` for a selected entry:
directories get an inline listing; video/image/code entries are painted from
the cache only when `cachedPath == file.path`, otherwise a "Loading..."
placeholder is shown and a job dispatched unless a request for this very path
is already in flight (in which case nothing is painted); everything else
falls back to the synchronous raw preview. -/
def drawPreviewAction (file : FileEntry) (cachedPath requestedPath : String) :
    PreviewAction :=
  let isVid := file.extension ∈ VIDEO_EXTS
  let isImg := file.extension ∈ IMAGE_EXTS
  let isCode := file.extension ∈ CODE_EXTS
  if file.is_directory then PreviewAction.dirListing
  else if isVid ∨ isImg ∨ isCode then
    if cachedPath = file.path then
      if isCode then PreviewAction.drawCacheText else PreviewAction.drawCacheImage
    else if requestedPath ≠ file.path then PreviewAction.loading
    else PreviewAction.waitInFlight
  else PreviewAction.rawPreview

/-- The five-element unit-name array of `formatSize`. -/
def sizeUnits : List String := ["B", "KB", "MB", "GB", "TB"]

/-- The unit-selection loop of `formatSize`
(`while (dSize > 1024 && i < 4) { dSize /= 1024; i++; }`), with the C++
`double` modelled as an exact rational (the loop guard alone bounds the
index, independently of rounding) and a fuel argument for structural
recursion: the guard `i < 4` admits at most four iterations from `i = 0`. -/
def sizeLoop : Nat → ℚ → Nat → ℚ × Nat
  | 0, d, i => (d, i)
  | fuel + 1, d, i =>
    if 1024 < d ∧ i < 4 then sizeLoop fuel (d / 1024) (i + 1) else (d, i)

/-- Result of `formatSize`: the scaled value, the unit index the loop settled
on, and the unit name read from `units[i]`. -/
structure SizeText where
  value : ℚ
  unitIndex : Nat
  unitName : String
deriving DecidableEq, Repr

/-- `formatSize(size)`: run the unit-selection loop from the raw byte count
and index 0, then format with the selected unit name. -/
def formatSize (size : Nat) : SizeText :=
  let res := sizeLoop 4 (size : ℚ) 0
  { value := res.1, unitIndex := res.2, unitName := sizeUnits.getD res.2 "" }

/-! Helper lemmas. -/

/-- The unit-selection loop never pushes the index past 4: it increments only
under the guard `i < 4`. -/
theorem sizeLoop_snd_le (fuel : Nat) :
    ∀ (d : ℚ) (i : Nat), i ≤ 4 → (sizeLoop fuel d i).2 ≤ 4 := by
  induction fuel with
  | zero => intro d i h; exact h
  | succ n ih =>
    intro d i h
    simp only [sizeLoop]
    split
    · next hc => exact ih (d / 1024) (i + 1) (by omega)
    · simpa using h

/-- First-match semantics of `List.findIdx?`: a found index is in bounds and
its element satisfies the predicate; `none` means no element does. -/
theorem findIdxQ_spec (p : FileEntry → Bool) :
    ∀ l : List FileEntry,
      (∀ j, List.findIdx? p l = some j →
        ∃ h : j < l.length, p (l.get ⟨j, h⟩) = true) ∧
      (List.findIdx? p l = none → ∀ f ∈ l, p f = false) := by
  intro l
  induction l with
  | nil =>
    refine ⟨fun j hj => by simp at hj, fun _ f hf => absurd hf (List.not_mem_nil f)⟩
  | cons a rest ih =>
    by_cases hp : p a = true
    · refine ⟨fun j hj => ?_, fun hn => ?_⟩
      · rw [List.findIdx?_cons, if_pos hp] at hj
        cases hj
        exact ⟨by simp, hp⟩
      · rw [List.findIdx?_cons, if_pos hp] at hn
        cases hn
    · refine ⟨fun j hj => ?_, fun hn f hf => ?_⟩
      · rw [List.findIdx?_cons, if_neg hp, List.findIdx?_succ] at hj
        cases hfind : List.findIdx? p rest 0 with
        | none => rw [hfind] at hj; cases hj
        | some k =>
          rw [hfind] at hj
          simp only [Option.map_some'] at hj
          cases hj
          obtain ⟨hk, hpk⟩ := ih.1 k hfind
          exact ⟨by simpa using Nat.succ_lt_succ hk, by simpa using hpk⟩
      · rw [List.findIdx?_cons, if_neg hp, List.findIdx?_succ] at hn
        rcases List.mem_cons.mp hf with hfa | hfr
        · subst hfa; simpa using hp
        · cases hfind : List.findIdx? p rest 0 with
          | none => exact ih.2 hfind f hfr
          | some k => rw [hfind] at hn; simp at hn

/-! Claim theorems. -/

/-- Claim C8: after ascending to the parent directory, the cursor points at
the first entry of the new catalog whose display name equals the leaf name of
the previous current directory when such an entry is present, and at index 0
otherwise. -/
theorem goUp_reselects_child (files : List FileEntry) (oldDirName : String) :
    ((∃ f ∈ files, f.name = oldDirName) →
      ∃ h : goUpIndex files oldDirName < files.length,
        (files.get ⟨goUpIndex files oldDirName, h⟩).name = oldDirName) ∧
    ((∀ f ∈ files, f.name ≠ oldDirName) → goUpIndex files oldDirName = 0) := by
  have hspec := findIdxQ_spec (fun f => f.name == oldDirName) files
  constructor
  · intro hex
    unfold goUpIndex
    cases hfind : List.findIdx? (fun f => f.name == oldDirName) files with
    | none =>
      obtain ⟨f, hf, hfn⟩ := hex
      have := hspec.2 hfind f hf
      simp [hfn] at this
    | some j =>
      obtain ⟨hlt, hpj⟩ := hspec.1 j hfind
      exact ⟨hlt, by simpa using hpj⟩
  · intro hall
    unfold goUpIndex
    cases hfind : List.findIdx? (fun f => f.name == oldDirName) files with
    | none => rfl
    | some j =>
      obtain ⟨hlt, hpj⟩ := hspec.1 j hfind
      have hmem := List.get_mem files j hlt
      have hne := hall _ hmem
      rw [List.get_eq_getElem] at hne
      simp only [beq_iff_eq] at hpj
      exact absurd hpj hne

/-- Witness for C8 at a concrete parent catalog. -/
theorem goUp_reselects_child_witness :
    (∃ h : goUpIndex [⟨"/p/a", "a", true, 0, ""⟩, ⟨"/p/b", "b", true, 0, ""⟩] "b" <
        ([⟨"/p/a", "a", true, 0, ""⟩, ⟨"/p/b", "b", true, 0, ""⟩] : List FileEntry).length,
      (([⟨"/p/a", "a", true, 0, ""⟩, ⟨"/p/b", "b", true, 0, ""⟩] : List FileEntry).get
        ⟨goUpIndex [⟨"/p/a", "a", true, 0, ""⟩, ⟨"/p/b", "b", true, 0, ""⟩] "b", h⟩).name = "b") :=
  (goUp_reselects_child [⟨"/p/a", "a", true, 0, ""⟩, ⟨"/p/b", "b", true, 0, ""⟩] "b").1
    ⟨⟨"/p/b", "b", true, 0, ""⟩, by decide, rfl⟩

/-- Claim C9: for every input size, the unit-selection loop of `formatSize`
leaves the unit index within the bounds of the five-element unit array, so
the array access is in bounds and the function totally returns a formatted
value. -/
theorem formatSize_unit_index_bounds (size : Nat) :
    (formatSize size).unitIndex < sizeUnits.length ∧
    (formatSize size).unitName ∈ sizeUnits := by
  have hb : (sizeLoop 4 ((size : ℚ)) 0).2 ≤ 4 := sizeLoop_snd_le 4 _ 0 (by omega)
  have hidx : (formatSize size).unitIndex = (sizeLoop 4 ((size : ℚ)) 0).2 := rfl
  have hname : (formatSize size).unitName
      = sizeUnits.getD (sizeLoop 4 ((size : ℚ)) 0).2 "" := rfl
  have hmem : ∀ n, n ≤ 4 → sizeUnits.getD n "" ∈ sizeUnits := by
    intro n hn
    interval_cases n <;> decide
  constructor
  · rw [hidx]
    have hlen : sizeUnits.length = 5 := rfl
    omega
  · rw [hname]
    exact hmem _ hb

/-- Claim C10: invoking copy or cut with an empty catalog is a no-op: the
clipboard, the multi-selection set and the status message are all left
unchanged. -/
theorem yank_empty_catalog_noop (currentFiles : List FileEntry)
    (selectedIndex : Nat) (st : YankState) (h : currentFiles = []) :
    handleCopy currentFiles selectedIndex st = st ∧
    handleCut currentFiles selectedIndex st = st := by
  subst h
  exact ⟨rfl, rfl⟩

/-- Witness for C10 at a concrete state with a non-empty clipboard. -/
theorem yank_empty_catalog_noop_witness :
    handleCopy [] 2 ⟨⟨["/q"], true⟩, ["/m"], "s"⟩ = ⟨⟨["/q"], true⟩, ["/m"], "s"⟩ ∧
    handleCut [] 2 ⟨⟨["/q"], true⟩, ["/m"], "s"⟩ = ⟨⟨["/q"], true⟩, ["/m"], "s"⟩ :=
  yank_empty_catalog_noop [] 2 ⟨⟨["/q"], true⟩, ["/m"], "s"⟩ rfl

/-- Claim C7 (amended): in copy mode, a clipboard item whose destination
already exists never overwrites that destination; it is skipped whenever the
source path differs from the destination, while a source equal to its own
destination falls through to a copy attempt that fails and is swallowed. -/
theorem pasteItem_no_overwrite (currentPath : String) (fsPaths : List String)
    (src : String) (hdest : destPath currentPath src ∈ fsPaths) :
    (pasteItem currentPath false fsPaths src).1 = fsPaths ∧
    (src ≠ destPath currentPath src →
      (pasteItem currentPath false fsPaths src).2 = ItemOutcome.skipped) := by
  by_cases hsd : src = destPath currentPath src
  · have hcopy : pasteItem currentPath false fsPaths src = (fsPaths, ItemOutcome.failed) := by
      simp only [pasteItem]
      rw [if_neg (fun h => h.2.2 hsd), if_neg (by simp), if_neg (fun h => h.2 hdest)]
    exact ⟨by rw [hcopy], fun hne => absurd hsd hne⟩
  · have hskip : pasteItem currentPath false fsPaths src = (fsPaths, ItemOutcome.skipped) := by
      simp only [pasteItem]
      rw [if_pos ⟨hdest, by simp, hsd⟩]
    exact ⟨by rw [hskip], fun _ => by rw [hskip]⟩

/-- Witness for C7 (amended) at a concrete filesystem with a conflicting
destination. -/
theorem pasteItem_no_overwrite_witness :
    (pasteItem "/t" false ["/t/f", "/s/f"] "/s/f").1 = ["/t/f", "/s/f"] ∧
    ("/s/f" ≠ destPath "/t" "/s/f" →
      (pasteItem "/t" false ["/t/f", "/s/f"] "/s/f").2 = ItemOutcome.skipped) :=
  pasteItem_no_overwrite "/t" ["/t/f", "/s/f"] "/s/f" (by decide)

/-- Counterexample for C7 as stated: pasting a copied file into its own
directory has an existing destination (the file itself), yet the item is not
skipped — the copy is attempted and fails. -/
theorem pasteItem_skip_counterexample :
    destPath "/d" "/d/f" ∈ ["/d/f"] ∧
    (pasteItem "/d" false ["/d/f"] "/d/f").2 ≠ ItemOutcome.skipped := by
  decide

/-- One `loadDirectory` pass over a stream that errors out after the entries
of `pre`: the entries of `pre` passing the filter are collected and the
thrown flag is set. -/
theorem scanEntries_entries_error (wantDir showHidden : Bool)
    (pre : List FileEntry) (rest : List DirEvent) :
    scanEntries wantDir showHidden (pre.map DirEvent.entry ++ DirEvent.fsError :: rest)
      = (pre.filter (fun e => keepEntry showHidden e && (e.is_directory == wantDir)), true) := by
  induction pre with
  | nil => rfl
  | cons e es ih =>
    simp only [List.map_cons, List.cons_append, scanEntries, List.append_eq, ih,
      List.filter_cons]
    split <;> rfl

/-- One `loadDirectory` pass over an error-free stream: exactly the filter. -/
theorem scanEntries_entries (wantDir showHidden : Bool) (es : List FileEntry) :
    scanEntries wantDir showHidden (es.map DirEvent.entry)
      = (es.filter (fun e => keepEntry showHidden e && (e.is_directory == wantDir)), false) := by
  induction es with
  | nil => rfl
  | cons e rest ih =>
    simp only [List.map_cons, scanEntries, ih, List.filter_cons]
    split <;> rfl

/-- Claim C5 (amended): a filesystem error during catalog loading is absorbed
silently, but the result is empty only when the error strikes at directory
open (before any entry is produced, e.g. permission denied); an error in
mid-iteration leaves exactly the directory entries accumulated before the
error (unsorted), so a partial list can remain. -/
theorem loadDirectory_error_behavior (pre : List FileEntry) (rest : List DirEvent)
    (showHidden : Bool) :
    loadDirectory (pre.map DirEvent.entry ++ DirEvent.fsError :: rest) showHidden
      = pre.filter (fun e => keepEntry showHidden e && e.is_directory) ∧
    loadDirectory (DirEvent.fsError :: rest) showHidden = [] := by
  have hfun : (fun e : FileEntry => keepEntry showHidden e && (e.is_directory == true))
      = fun e : FileEntry => keepEntry showHidden e && e.is_directory := by
    funext e
    cases e.is_directory <;> simp
  constructor
  · unfold loadDirectory
    rw [scanEntries_entries_error, hfun]
    rfl
  · rfl

/-- Counterexample for C5 as stated: an I/O error thrown by the directory
iterator after one entry has been read leaves that entry in the target, so
the silently failing load returns a non-empty partial list. -/
theorem loadDirectory_error_counterexample :
    loadDirectory [DirEvent.entry ⟨"/d/a", "a", true, 0, ""⟩, DirEvent.fsError] false
      = [⟨"/d/a", "a", true, 0, ""⟩] ∧
    loadDirectory [DirEvent.entry ⟨"/d/a", "a", true, 0, ""⟩, DirEvent.fsError] false ≠ [] := by
  decide

/-- Only dispatches move the request counter: after any event sequence the
counter has grown by exactly the number of dispatches. -/
theorem pvFold_requestID (ps : List String) (t : List PvEvent) :
    ∀ s : PreviewSlot,
      (List.foldl (pvStep ps) s t).requestID = s.requestID + countDispatch t := by
  induction t with
  | nil => intro s; simp [countDispatch]
  | cons e rest ih =>
    intro s
    rw [List.foldl_cons, ih]
    cases e with
    | dispatch =>
      simp only [pvStep, countDispatch, List.filter_cons, isDispatch]
      simp
      omega
    | commit g =>
      have hstep : (pvStep ps s (PvEvent.commit g)).requestID = s.requestID := by
        simp only [pvStep]
        split <;> rfl
      rw [hstep]
      simp only [countDispatch, List.filter_cons, isDispatch]
      simp

/-- A tail of events containing no dispatch and no commit carrying the
current counter value leaves the shared preview state untouched. -/
theorem pvFold_stall (ps : List String) (t : List PvEvent) :
    ∀ s : PreviewSlot,
      (∀ g, PvEvent.commit g ∈ t → g ≠ s.requestID) →
      PvEvent.dispatch ∉ t →
      List.foldl (pvStep ps) s t = s := by
  induction t with
  | nil => intro s _ _; rfl
  | cons e rest ih =>
    intro s hc hd
    cases e with
    | dispatch => exact absurd (List.mem_cons_self _ _) hd
    | commit g =>
      have hg : g ≠ s.requestID := hc g (List.mem_cons_self _ _)
      have hstep : pvStep ps s (PvEvent.commit g) = s := by
        simp only [pvStep]
        rw [if_neg hg]
      rw [List.foldl_cons, hstep]
      exact ih s (fun g2 hm => hc g2 (List.mem_cons_of_mem _ hm))
        (fun hm => hd (List.mem_cons_of_mem _ hm))

/-- The path captured at the last dispatch of a run is the last dispatched
path. -/
theorem dispatchPath_length (ps : List String) :
    dispatchPath ps ps.length = ps.getLastD "" := by
  unfold dispatchPath
  rw [List.getD_eq_getElem?_getD, List.getLastD_eq_getLast?, List.getLast?_eq_getElem?]

/-- Claim C1: for any run in which all dispatches of the paths `ps` happen
(in any interleaving `t1` with earlier commits), then the final worker
(generation id `ps.length`) commits, then any of the remaining superseded
workers commit in any order, the cache slot ends up holding the path of the
last dispatched request; moreover a commit whose generation id is below the
counter's current value never writes at all — last-id-wins, not
last-to-finish-wins. -/
theorem preview_commit_last_id_wins (ps : List String) (t1 t2 : List PvEvent)
    (hd1 : countDispatch t1 = ps.length)
    (hnd : PvEvent.dispatch ∉ t2)
    (hng : ∀ g, PvEvent.commit g ∈ t2 → g ≠ ps.length) :
    (pvRun ps (t1 ++ PvEvent.commit ps.length :: t2)).cachedPath = ps.getLastD "" ∧
    (∀ (s : PreviewSlot) (g : Nat), g < s.requestID →
      pvStep ps s (PvEvent.commit g) = s) := by
  constructor
  · unfold pvRun
    rw [List.foldl_append, List.foldl_cons]
    set s1 := List.foldl (pvStep ps) { requestID := 0, cachedPath := "" } t1 with hs1
    have hreq : s1.requestID = ps.length := by
      rw [hs1, pvFold_requestID]
      simpa using hd1
    have hstep : pvStep ps s1 (PvEvent.commit ps.length)
        = { s1 with cachedPath := dispatchPath ps ps.length } := by
      simp only [pvStep]
      rw [if_pos hreq.symm]
    rw [hstep]
    have hrun := pvFold_stall ps t2 { s1 with cachedPath := dispatchPath ps ps.length }
      (fun g hm => by
        show g ≠ s1.requestID
        rw [hreq]
        exact hng g hm) hnd
    rw [hrun]
    exact dispatchPath_length ps
  · intro s g hlt
    have hne : g ≠ s.requestID := Nat.ne_of_lt hlt
    simp only [pvStep]
    rw [if_neg hne]

/-- Witness for C1: dispatch "a" then "b", the second worker commits, then
the first worker's late commit is dropped and the slot holds "b". -/
theorem preview_commit_last_id_wins_witness :
    (pvRun ["a", "b"]
        ([PvEvent.dispatch, PvEvent.dispatch] ++ PvEvent.commit 2 :: [PvEvent.commit 1])).cachedPath
      = ["a", "b"].getLastD "" :=
  (preview_commit_last_id_wins ["a", "b"] [PvEvent.dispatch, PvEvent.dispatch]
      [PvEvent.commit 1] (by decide) (by decide)
      (by
        intro g hm
        rw [List.mem_singleton] at hm
        injection hm with hg
        subst hg
        decide)).1

/-- Claim C2: the preview pane paints the cached payload only when the cache
slot's source path equals the path of the entry under the cursor; when they
differ nothing from the cache is displayed — a cacheable entry shows the
"Loading..." placeholder or nothing at all. -/
theorem preview_render_freshness_gate (file : FileEntry)
    (cachedPath requestedPath : String) :
    ((drawPreviewAction file cachedPath requestedPath = PreviewAction.drawCacheImage ∨
        drawPreviewAction file cachedPath requestedPath = PreviewAction.drawCacheText) →
      cachedPath = file.path) ∧
    (cachedPath ≠ file.path →
      drawPreviewAction file cachedPath requestedPath ≠ PreviewAction.drawCacheImage ∧
      drawPreviewAction file cachedPath requestedPath ≠ PreviewAction.drawCacheText ∧
      (file.is_directory = false →
        (file.extension ∈ VIDEO_EXTS ∨ file.extension ∈ IMAGE_EXTS ∨
          file.extension ∈ CODE_EXTS) →
        (drawPreviewAction file cachedPath requestedPath = PreviewAction.loading ∨
         drawPreviewAction file cachedPath requestedPath = PreviewAction.waitInFlight))) := by
  by_cases hcp : cachedPath = file.path
  · exact ⟨fun _ => hcp, fun hne => absurd hcp hne⟩
  · constructor
    · intro h
      rcases h with h | h <;>
      · revert h
        simp only [drawPreviewAction]
        split_ifs <;> simp_all
    · intro _
      refine ⟨?_, ?_, ?_⟩
      · simp only [drawPreviewAction]
        split_ifs <;> simp_all
      · simp only [drawPreviewAction]
        split_ifs <;> simp_all
      · intro hdir hkind
        simp only [drawPreviewAction]
        split_ifs <;> simp_all

/-- Witness for C2 at a stale cache path for a selected image entry. -/
theorem preview_render_freshness_gate_witness :
    drawPreviewAction ⟨"/a/x.png", "x.png", false, 3, ".png"⟩ "/a/y.png" "/a/y.png"
        ≠ PreviewAction.drawCacheImage ∧
    drawPreviewAction ⟨"/a/x.png", "x.png", false, 3, ".png"⟩ "/a/y.png" "/a/y.png"
        ≠ PreviewAction.drawCacheText ∧
    ((⟨"/a/x.png", "x.png", false, 3, ".png"⟩ : FileEntry).is_directory = false →
      ((⟨"/a/x.png", "x.png", false, 3, ".png"⟩ : FileEntry).extension ∈ VIDEO_EXTS ∨
        (⟨"/a/x.png", "x.png", false, 3, ".png"⟩ : FileEntry).extension ∈ IMAGE_EXTS ∨
        (⟨"/a/x.png", "x.png", false, 3, ".png"⟩ : FileEntry).extension ∈ CODE_EXTS) →
      (drawPreviewAction ⟨"/a/x.png", "x.png", false, 3, ".png"⟩ "/a/y.png" "/a/y.png"
          = PreviewAction.loading ∨
       drawPreviewAction ⟨"/a/x.png", "x.png", false, 3, ".png"⟩ "/a/y.png" "/a/y.png"
          = PreviewAction.waitInFlight)) :=
  (preview_render_freshness_gate ⟨"/a/x.png", "x.png", false, 3, ".png"⟩
      "/a/y.png" "/a/y.png").2 (by decide)

/-- The chunking loop emits nothing on an empty payload, whatever the fuel. -/
theorem kittyChunksAux_nil (fuel : Nat) (first : Bool) :
    kittyChunksAux fuel first [] = [] := by
  cases fuel <;> rfl

/-- Full characterisation of the chunking loop, by induction on the fuel:
chunk count is the ceiling of length over 4096, payloads concatenate back to
the input, only the head chunk carries the control metadata (when `first`),
and exactly the final chunk is marked `m = 0`. -/
theorem kittyChunksAux_spec (fuel : Nat) :
    ∀ (first : Bool) (cs : List Char), cs.length ≤ fuel → cs ≠ [] →
      (kittyChunksAux fuel first cs).length = (cs.length + 4095) / 4096 ∧
      ((kittyChunksAux fuel first cs).map KittyChunk.payload).flatten = cs ∧
      (kittyChunksAux fuel first cs).map KittyChunk.ctrl =
        (if first then KITTY_META else "") ::
          List.replicate ((kittyChunksAux fuel first cs).length - 1) "" ∧
      (kittyChunksAux fuel first cs).map KittyChunk.m =
        List.replicate ((kittyChunksAux fuel first cs).length - 1) 1 ++ [0] := by
  induction fuel with
  | zero =>
    intro first cs hle hne
    cases cs with
    | nil => exact absurd rfl hne
    | cons c cs2 => simp at hle
  | succ n ih =>
    intro first cs hle hne
    cases cs with
    | nil => exact absurd rfl hne
    | cons c cs2 =>
      by_cases hlen : (c :: cs2).length ≤ 4096
      · have hdrop : (c :: cs2).drop 4096 = [] := List.drop_eq_nil_of_le hlen
        have htake : (c :: cs2).take 4096 = c :: cs2 := List.take_of_length_le hlen
        have hone : kittyChunksAux (n + 1) first (c :: cs2) =
            [{ ctrl := if first then KITTY_META else "", m := 0, payload := c :: cs2 }] := by
          simp only [kittyChunksAux, hdrop, htake, kittyChunksAux_nil, if_pos hlen]
        have hL : 1 ≤ (c :: cs2).length := by simp
        rw [hone]
        refine ⟨by simp only [List.length_singleton]; omega, by simp, by simp, by simp⟩
      · have hdlen : ((c :: cs2).drop 4096).length = (c :: cs2).length - 4096 :=
          List.length_drop 4096 (c :: cs2)
        have hdne : (c :: cs2).drop 4096 ≠ [] := by
          apply List.ne_nil_of_length_pos
          omega
        have hdle : ((c :: cs2).drop 4096).length ≤ n := by
          have : (c :: cs2).length ≤ n + 1 := hle
          omega
        obtain ⟨ih1, ih2, ih3, ih4⟩ := ih false ((c :: cs2).drop 4096) hdle hdne
        have hcons : kittyChunksAux (n + 1) first (c :: cs2) =
            { ctrl := if first then KITTY_META else "", m := 1,
              payload := (c :: cs2).take 4096 } ::
              kittyChunksAux n false ((c :: cs2).drop 4096) := by
          simp only [kittyChunksAux, if_neg hlen]
        have hk1 : 1 ≤ (kittyChunksAux n false ((c :: cs2).drop 4096)).length := by
          rw [ih1]
          omega
        rw [hcons]
        refine ⟨?_, ?_, ?_, ?_⟩
        · simp only [List.length_cons, ih1, hdlen]
          omega
        · simp only [List.map_cons, List.flatten_cons, ih2]
          exact List.take_append_drop 4096 (c :: cs2)
        · simp only [List.map_cons, ih3, List.length_cons]
          have hsplit : (kittyChunksAux n false ((c :: cs2).drop 4096)).length
              = ((kittyChunksAux n false ((c :: cs2).drop 4096)).length - 1) + 1 := by
            omega
          rw [Nat.add_sub_cancel]
          nth_rewrite 2 [hsplit]
          rw [List.replicate_succ]
          simp
        · simp only [List.map_cons, ih4, List.length_cons]
          have hsplit : (kittyChunksAux n false ((c :: cs2).drop 4096)).length
              = ((kittyChunksAux n false ((c :: cs2).drop 4096)).length - 1) + 1 := by
            omega
          rw [Nat.add_sub_cancel]
          nth_rewrite 2 [hsplit]
          rw [List.replicate_succ, List.cons_append]

/-- Claim C3: encoding a non-empty base64 payload with the fixed chunk size
4096 yields exactly `ceil(L / 4096)` framed chunks whose payloads concatenate
back to the original string, with the placement metadata
`a=T,f=100,t=d,q=2,` only on the first chunk, `m = 0` only on the final
chunk and `m = 1` on every earlier one; a length not divisible by 4096 shows
up as a shorter final chunk (the payload lengths sum to `L`). -/
theorem kitty_chunking_roundtrip (b64Data : List Char) (h : b64Data ≠ []) :
    (sendKittyGraphics b64Data).length = (b64Data.length + 4095) / 4096 ∧
    ((sendKittyGraphics b64Data).map KittyChunk.payload).flatten = b64Data ∧
    (sendKittyGraphics b64Data).map KittyChunk.ctrl =
      KITTY_META :: List.replicate ((sendKittyGraphics b64Data).length - 1) "" ∧
    (sendKittyGraphics b64Data).map KittyChunk.m =
      List.replicate ((sendKittyGraphics b64Data).length - 1) 1 ++ [0] := by
  have hspec := kittyChunksAux_spec b64Data.length true b64Data le_rfl h
  simpa [sendKittyGraphics] using hspec

/-- Witness for C3 on the payload "abc": one chunk, metadata present,
terminal marker set. -/
theorem kitty_chunking_roundtrip_witness :
    (sendKittyGraphics ['a', 'b', 'c']).length
        = ((['a', 'b', 'c'] : List Char).length + 4095) / 4096 ∧
    ((sendKittyGraphics ['a', 'b', 'c']).map KittyChunk.payload).flatten
        = ['a', 'b', 'c'] ∧
    (sendKittyGraphics ['a', 'b', 'c']).map KittyChunk.ctrl =
      KITTY_META :: List.replicate ((sendKittyGraphics ['a', 'b', 'c']).length - 1) "" ∧
    (sendKittyGraphics ['a', 'b', 'c']).map KittyChunk.m =
      List.replicate ((sendKittyGraphics ['a', 'b', 'c']).length - 1) 1 ++ [0] :=
  kitty_chunking_roundtrip ['a', 'b', 'c'] (by decide)

/-- The sort step of `loadDirectory` permutes its run. -/
theorem sortRun_perm (l : List FileEntry) : (sortRun l).Perm l :=
  List.perm_insertionSort nameLe l

/-- The sort step of `loadDirectory` orders its run by the comparator's weak
order. -/
theorem sortRun_sorted (l : List FileEntry) : List.Pairwise nameLe (sortRun l) :=
  List.sorted_insertionSort nameLe l

/-- With pairwise-distinct names the sorted run is strictly increasing in the
lexicographic order on names. -/
theorem sortRun_strict (l : List FileEntry) (hnd : (l.map FileEntry.name).Nodup) :
    List.Pairwise (fun a b => a.name.data < b.name.data) (sortRun l) := by
  have hnd2 : ((sortRun l).map FileEntry.name).Nodup :=
    (List.Perm.nodup_iff (List.Perm.map FileEntry.name (sortRun_perm l))).mpr hnd
  have hpne : List.Pairwise (fun a b : FileEntry => a.name ≠ b.name) (sortRun l) :=
    List.pairwise_map.mp hnd2
  exact ((sortRun_sorted l).and hpne).imp
    (fun h => lt_of_le_of_ne h.1 (fun hd => h.2 (String.ext hd)))

/-- Claim C4: for every directory stream and show-hidden flag, the catalog
load places every directory entry before every file entry regardless of name,
and each of the two runs is strictly sorted in the case-sensitive
lexicographic order of display names (names in a directory are pairwise
distinct). -/
theorem loadDirectory_ordering (es : List FileEntry) (showHidden : Bool)
    (hnd : (es.map FileEntry.name).Nodup) :
    loadDirectory (es.map DirEvent.entry) showHidden
        = sortRun (es.filter fun e => keepEntry showHidden e && e.is_directory)
          ++ sortRun (es.filter fun e => keepEntry showHidden e && !e.is_directory) ∧
    (∀ e ∈ sortRun (es.filter fun e => keepEntry showHidden e && e.is_directory),
      e.is_directory = true) ∧
    (∀ e ∈ sortRun (es.filter fun e => keepEntry showHidden e && !e.is_directory),
      e.is_directory = false) ∧
    List.Pairwise (fun a b => a.name.data < b.name.data)
      (sortRun (es.filter fun e => keepEntry showHidden e && e.is_directory)) ∧
    List.Pairwise (fun a b => a.name.data < b.name.data)
      (sortRun (es.filter fun e => keepEntry showHidden e && !e.is_directory)) := by
  have hfun1 : (fun e : FileEntry => keepEntry showHidden e && (e.is_directory == true))
      = fun e : FileEntry => keepEntry showHidden e && e.is_directory := by
    funext e
    cases e.is_directory <;> simp
  have hfun2 : (fun e : FileEntry => keepEntry showHidden e && (e.is_directory == false))
      = fun e : FileEntry => keepEntry showHidden e && !e.is_directory := by
    funext e
    cases e.is_directory <;> simp
  have hndd : ((es.filter fun e => keepEntry showHidden e && e.is_directory).map
      FileEntry.name).Nodup :=
    List.Nodup.sublist (List.Sublist.map FileEntry.name (List.filter_sublist es)) hnd
  have hndf : ((es.filter fun e => keepEntry showHidden e && !e.is_directory).map
      FileEntry.name).Nodup :=
    List.Nodup.sublist (List.Sublist.map FileEntry.name (List.filter_sublist es)) hnd
  refine ⟨?_, ?_, ?_, sortRun_strict _ hndd, sortRun_strict _ hndf⟩
  · unfold loadDirectory
    rw [scanEntries_entries, scanEntries_entries, hfun1, hfun2]
    rfl
  · intro e he
    have hmem := (List.Perm.mem_iff (sortRun_perm _)).mp he
    have := (List.mem_filter.mp hmem).2
    simp only [Bool.and_eq_true] at this
    exact this.2
  · intro e he
    have hmem := (List.Perm.mem_iff (sortRun_perm _)).mp he
    have := (List.mem_filter.mp hmem).2
    simp only [Bool.and_eq_true, Bool.not_eq_true'] at this
    exact this.2

/-- Witness for C4 on a two-entry directory (one file, one directory). -/
theorem loadDirectory_ordering_witness :
    loadDirectory ([⟨"/d/b.txt", "b.txt", false, 1, ".txt"⟩, ⟨"/d/a", "a", true, 0, ""⟩].map
        DirEvent.entry) false
        = sortRun (([⟨"/d/b.txt", "b.txt", false, 1, ".txt"⟩, ⟨"/d/a", "a", true, 0, ""⟩] :
              List FileEntry).filter fun e => keepEntry false e && e.is_directory)
          ++ sortRun (([⟨"/d/b.txt", "b.txt", false, 1, ".txt"⟩, ⟨"/d/a", "a", true, 0, ""⟩] :
              List FileEntry).filter fun e => keepEntry false e && !e.is_directory) ∧
    (∀ e ∈ sortRun (([⟨"/d/b.txt", "b.txt", false, 1, ".txt"⟩, ⟨"/d/a", "a", true, 0, ""⟩] :
          List FileEntry).filter fun e => keepEntry false e && e.is_directory),
      e.is_directory = true) ∧
    (∀ e ∈ sortRun (([⟨"/d/b.txt", "b.txt", false, 1, ".txt"⟩, ⟨"/d/a", "a", true, 0, ""⟩] :
          List FileEntry).filter fun e => keepEntry false e && !e.is_directory),
      e.is_directory = false) ∧
    List.Pairwise (fun a b => a.name.data < b.name.data)
      (sortRun (([⟨"/d/b.txt", "b.txt", false, 1, ".txt"⟩, ⟨"/d/a", "a", true, 0, ""⟩] :
          List FileEntry).filter fun e => keepEntry false e && e.is_directory)) ∧
    List.Pairwise (fun a b => a.name.data < b.name.data)
      (sortRun (([⟨"/d/b.txt", "b.txt", false, 1, ".txt"⟩, ⟨"/d/a", "a", true, 0, ""⟩] :
          List FileEntry).filter fun e => keepEntry false e && !e.is_directory)) :=
  loadDirectory_ordering [⟨"/d/b.txt", "b.txt", false, 1, ".txt"⟩, ⟨"/d/a", "a", true, 0, ""⟩]
    false (by decide)

/-- Claim C6: paste never clears a copy-mode clipboard (so repeated pastes
reuse the same source paths, and with no name conflicts each item succeeds);
after a cut, paste clears the clipboard exactly when at least one item was
moved; paste with an empty clipboard reports "Clipboard empty" and changes
no state. -/
theorem handlePaste_clipboard_semantics (currentPath : String)
    (fsPaths : List String) (clip : Clipboard) :
    (clip.isCut = false → (handlePaste currentPath fsPaths clip).clipboard = clip) ∧
    (clip.isCut = true → clip.paths ≠ [] →
      ((handlePaste currentPath fsPaths clip).clipboard.paths = [] ↔
        0 < (handlePaste currentPath fsPaths clip).successCount)) ∧
    (clip.paths = [] →
      handlePaste currentPath fsPaths clip =
        { fsPaths := fsPaths, clipboard := clip,
          statusMessage := "Clipboard empty", successCount := 0 }) ∧
    (∀ src ∈ fsPaths, destPath currentPath src ∉ fsPaths →
      pasteItem currentPath false fsPaths src =
        (fsPaths.insert (destPath currentPath src), ItemOutcome.succeeded)) := by
  refine ⟨?_, ?_, ?_, ?_⟩
  · intro hcut
    by_cases hempty : clip.paths.isEmpty
    · simp only [handlePaste, if_pos hempty]
    · simp only [handlePaste, if_neg hempty]
      rw [if_neg (by simp [hcut])]
  · intro hcut hne
    have hempty : ¬ clip.paths.isEmpty = true := by
      simpa [List.isEmpty_iff] using hne
    have key : ∀ n : Nat,
        ((if clip.isCut = true ∧ 0 < n
            then ({ paths := [], isCut := clip.isCut } : Clipboard)
            else clip).paths = [] ↔ 0 < n) := by
      intro n
      by_cases hpos : 0 < n
      · rw [if_pos ⟨hcut, hpos⟩]
        simpa using hpos
      · rw [if_neg (fun h => hpos h.2)]
        simp [hne, hpos]
    simp only [handlePaste, if_neg hempty]
    exact key _
  · intro hp
    have hempty : clip.paths.isEmpty = true := by simp [hp]
    simp only [handlePaste, if_pos hempty]
  · intro src hsrc hdest
    simp only [pasteItem]
    rw [if_neg (fun h => hdest h.1), if_neg (by simp), if_pos ⟨hsrc, hdest⟩]

/-- Witness for C6: a copy-mode paste keeps the clipboard, a cut-mode paste
of an existing source empties it, an empty-clipboard paste is a reported
no-op, and a conflict-free copy of an existing source succeeds. -/
theorem handlePaste_clipboard_semantics_witness :
    (handlePaste "/d" ["/s/a"] ⟨["/s/a"], false⟩).clipboard = ⟨["/s/a"], false⟩ ∧
    ((handlePaste "/d" ["/s/a"] ⟨["/s/a"], true⟩).clipboard.paths = [] ↔
      0 < (handlePaste "/d" ["/s/a"] ⟨["/s/a"], true⟩).successCount) ∧
    handlePaste "/d" ["/s/a"] ⟨[], true⟩ =
      { fsPaths := ["/s/a"], clipboard := ⟨[], true⟩,
        statusMessage := "Clipboard empty", successCount := 0 } ∧
    pasteItem "/d" false ["/s/a"] "/s/a" =
      (["/s/a"].insert (destPath "/d" "/s/a"), ItemOutcome.succeeded) :=
  ⟨(handlePaste_clipboard_semantics "/d" ["/s/a"] ⟨["/s/a"], false⟩).1 rfl,
   (handlePaste_clipboard_semantics "/d" ["/s/a"] ⟨["/s/a"], true⟩).2.1 rfl (by decide),
   (handlePaste_clipboard_semantics "/d" ["/s/a"] ⟨[], true⟩).2.2.1 rfl,
   (handlePaste_clipboard_semantics "/d" ["/s/a"] ⟨["/s/a"], false⟩).2.2.2 "/s/a"
     (by decide) (by decide)⟩
